import Mathlib

/-!
Shallow embedding of the in-memory mock document store of
`src/backend/database.py` (class `MockCollection`), together with proofs
about its query-matching and update-operator engine.

Conventions of the embedding:
* Python values (the scalars, strings, lists and nested dicts used by the
  store) are the inductive `Value`.
* A Python dict is an association list preserving insertion order
  (Python 3.7+ dicts are ordered); updating an existing key keeps its
  position, adding a new key appends at the end — see `setField`.
* The collection's backing dict maps string keys to documents (every key
  this repository ever stores — activity names, usernames — is a string).
* A Python operation that can raise an exception is modelled with
  `Option`: `none` is a raised exception, `some x` a normal return.
-/

/-- Python values as stored and queried by `MockCollection`:
integers, strings, lists, and dicts (string-keyed mappings). -/
inductive Value where
  | vInt (n : Int)
  | vStr (s : String)
  | vList (xs : List Value)
  | vDoc (fields : List (String × Value))

mutual

/-- Decidable equality on `Value` (the derive handler does not support
this nested inductive, so it is written out). -/
def Value.decEq : (a b : Value) → Decidable (a = b)
  | .vInt a, .vInt b =>
    if h : a = b then .isTrue (by rw [h])
    else .isFalse (fun he => by injection he with h1; exact h h1)
  | .vInt _, .vStr _ => .isFalse (fun h => Value.noConfusion h)
  | .vInt _, .vList _ => .isFalse (fun h => Value.noConfusion h)
  | .vInt _, .vDoc _ => .isFalse (fun h => Value.noConfusion h)
  | .vStr _, .vInt _ => .isFalse (fun h => Value.noConfusion h)
  | .vStr a, .vStr b =>
    if h : a = b then .isTrue (by rw [h])
    else .isFalse (fun he => by injection he with h1; exact h h1)
  | .vStr _, .vList _ => .isFalse (fun h => Value.noConfusion h)
  | .vStr _, .vDoc _ => .isFalse (fun h => Value.noConfusion h)
  | .vList _, .vInt _ => .isFalse (fun h => Value.noConfusion h)
  | .vList _, .vStr _ => .isFalse (fun h => Value.noConfusion h)
  | .vList xs, .vList ys =>
    match Value.decEqList xs ys with
    | .isTrue h => .isTrue (by rw [h])
    | .isFalse h => .isFalse (fun he => by injection he with h1; exact h h1)
  | .vList _, .vDoc _ => .isFalse (fun h => Value.noConfusion h)
  | .vDoc _, .vInt _ => .isFalse (fun h => Value.noConfusion h)
  | .vDoc _, .vStr _ => .isFalse (fun h => Value.noConfusion h)
  | .vDoc _, .vList _ => .isFalse (fun h => Value.noConfusion h)
  | .vDoc fs, .vDoc gs =>
    match Value.decEqFields fs gs with
    | .isTrue h => .isTrue (by rw [h])
    | .isFalse h => .isFalse (fun he => by injection he with h1; exact h h1)

/-- Decidable equality on lists of values. -/
def Value.decEqList : (a b : List Value) → Decidable (a = b)
  | [], [] => .isTrue rfl
  | [], _ :: _ => .isFalse (fun h => List.noConfusion h)
  | _ :: _, [] => .isFalse (fun h => List.noConfusion h)
  | x :: xs, y :: ys =>
    match Value.decEq x y with
    | .isFalse h => .isFalse (fun he => by injection he with h1 h2; exact h h1)
    | .isTrue h1 =>
      match Value.decEqList xs ys with
      | .isTrue h2 => .isTrue (by rw [h1, h2])
      | .isFalse h => .isFalse (fun he => by injection he with ha hb; exact h hb)

/-- Decidable equality on field lists (dict entries). -/
def Value.decEqFields : (a b : List (String × Value)) → Decidable (a = b)
  | [], [] => .isTrue rfl
  | [], _ :: _ => .isFalse (fun h => List.noConfusion h)
  | _ :: _, [] => .isFalse (fun h => List.noConfusion h)
  | (k, v) :: xs, (l, w) :: ys =>
    if hk : k = l then
      match Value.decEq v w with
      | .isFalse h =>
        .isFalse (fun he => by
          injection he with h1 h2
          injection h1 with ha hb
          exact h hb)
      | .isTrue hv =>
        match Value.decEqFields xs ys with
        | .isTrue h2 => .isTrue (by rw [hk, hv, h2])
        | .isFalse h => .isFalse (fun he => by injection he with ha hb; exact h hb)
    else
      .isFalse (fun he => by
        injection he with h1 h2
        injection h1 with ha hb
        exact hk ha)

end

instance : DecidableEq Value := Value.decEq

/-- A document body: a Python dict, i.e. an ordered association list. -/
abbrev Doc := List (String × Value)

/-- The backing store `self.data`: dict from key to document body. -/
abbrev Store := List (String × Doc)

/-- Python `key in dict` (used both on documents and on the backing
store). -/
def hasKey {β : Type} (d : List (String × β)) (k : String) : Bool :=
  d.any (fun p => p.1 == k)

/-- Python `dict[key]` / `dict.get(key)`: value of the first binding. -/
def getKey {β : Type} (d : List (String × β)) (k : String) : Option β :=
  (d.find? (fun p => p.1 == k)).map (·.2)

/-- Python `dict[key] = v`: overwrite in place if the key is bound
(keeping its position), else append a new binding. -/
def setField {β : Type} (d : List (String × β)) (k : String) (v : β) :
    List (String × β) :=
  if hasKey d k then d.map (fun p => if p.1 == k then (p.1, v) else p)
  else d ++ [(k, v)]

/-- The code points of a string: Python compares strings as these
sequences. -/
def strKey (s : String) : List Nat :=
  s.toList.map Char.toNat

mutual

/-- Python `a < b` for the modelled value types: defined on `int`/`int`,
`str`/`str` (lexicographic by code point) and `list`/`list`
(lexicographic); every other combination raises `TypeError`, modelled as
`none`. -/
def pyLt : Value → Value → Option Bool
  | .vInt a, .vInt b => some (decide (a < b))
  | .vStr a, .vStr b => some (decide (strKey a < strKey b))
  | .vList xs, .vList ys => pyLtList xs ys
  | _, _ => none

/-- Python list comparison: skip equal heads, compare the first differing
elements, a strict prefix is smaller. -/
def pyLtList : List Value → List Value → Option Bool
  | [], [] => some false
  | [], _ :: _ => some true
  | _ :: _, [] => some false
  | x :: xs, y :: ys => if x = y then pyLtList xs ys else pyLt x y

end

/-- Python `item in container`: list membership compares with `==`
(total across types), `str in str` is the substring test (non-string
items raise), `x in dict` tests keys (ints are hashable but never equal
a string key; lists/dicts are unhashable and raise), `in` an int raises. -/
def pyIn (item container : Value) : Option Bool :=
  match container with
  | .vList xs => some (xs.contains item)
  | .vStr s =>
    match item with
    | .vStr t => some (decide (t.toList <:+: s.toList))
    | _ => none
  | .vDoc fields =>
    match item with
    | .vStr k => some (hasKey fields k)
    | .vInt _ => some false
    | _ => none
  | .vInt _ => none

/-- Python iteration `for x in v`: lists yield their elements, strings
yield one-character strings, dicts yield their keys; iterating an int
raises. -/
def toIter : Value → Option (List Value)
  | .vList xs => some xs
  | .vStr s => some (s.toList.map (fun c => .vStr (String.mk [c])))
  | .vDoc fields => some (fields.map (fun p => .vStr p.1))
  | .vInt _ => none

/-- `any(item in current_val for item in value['$in'])` with Python's
lazy evaluation: a raising membership test after a `True` is never
reached. -/
def anyIn (items : List Value) (container : Value) : Option Bool :=
  match items with
  | [] => some false
  | x :: rest =>
    match pyIn x container with
    | none => none
    | some true => some true
    | some false => anyIn rest container

/-- The operator-dispatch block of `_match_query`, shared verbatim by the
nested branch (database.py lines 74-86) and the top-level branch (lines
90-102): `current_val` checked against a clause value that is either an
operator dict (`$in` / `$gte` / `$lte`, first match wins, an operator-free
dict passes) or a literal compared with `!=`. -/
def checkOp (cv target : Value) : Option Bool :=
  match target with
  | .vDoc fields =>
    if hasKey fields "$in" then
      match getKey fields "$in" with
      | some inv =>
        match toIter inv with
        | some items => anyIn items cv
        | none => none
      | none => none
    else if hasKey fields "$gte" then
      match getKey fields "$gte" with
      | some g =>
        match pyLt cv g with
        | some b => some (!b)
        | none => none
      | none => none
    else if hasKey fields "$lte" then
      match getKey fields "$lte" with
      | some l =>
        match pyLt l cv with
        | some b => some (!b)
        | none => none
      | none => none
    else some true
  | _ => some (cv == target)

/-- Dotted-path traversal (lines 65-71): every segment must hit a present
dict key, otherwise the clause makes the whole match return `False`
(`none` here means that `return False`, not an exception — the traversal
itself cannot raise). -/
def resolvePath : Value → List String → Option Value
  | v, [] => some v
  | v, p :: rest =>
    match v with
    | .vDoc fields =>
      match getKey fields p with
      | some v2 => resolvePath v2 rest
      | none => none
    | _ => none

/-- `key.split('.')` as a structural recursion over the characters (the
library's `String.splitOn` agrees but is defined by recursion on byte
positions, which the kernel cannot evaluate). -/
def splitChars (c : Char) : List Char → List (List Char)
  | [] => [[]]
  | x :: xs =>
    if x = c then [] :: splitChars c xs
    else
      match splitChars c xs with
      | h :: t => (x :: h) :: t
      | [] => [[x]]

/-- `key.split('.')`. -/
def splitDots (key : String) : List String :=
  (splitChars '.' key.toList).map (fun cs => String.mk cs)

/-- One iteration of the `_match_query` loop (lines 62-104): the verdict
of a single `key: value` clause on a document. `some false` is the loop's
`return False`, `none` a raised exception. -/
def matchClause (doc : Doc) (key : String) (value : Value) : Option Bool :=
  if key.toList.contains '.' then
    match resolvePath (.vDoc doc) (splitDots key) with
    | none => some false
    | some cv => checkOp cv value
  else
    if hasKey doc key then
      match getKey doc key with
      | some cv => checkOp cv value
      | none => none
    else some false

/-- `_match_query(doc, query)` (lines 60-105): conjunction over the
clauses, short-circuiting on the first failing (or raising) clause. -/
def matchQuery (doc : Doc) : List (String × Value) → Option Bool
  | [] => some true
  | (k, v) :: rest =>
    match matchClause doc k v with
    | none => none
    | some false => some false
    | some true => matchQuery doc rest

/-- `count_documents(query)` (lines 32-33): `len(self.data)` — the query
argument is ignored. -/
def count_documents (data : Store) (query : List (String × Value)) : Nat :=
  data.length

/-- `insert_one(document)` (lines 35-38): look up `_id`; `if doc_id:` is a
truthiness test, so a missing or falsy id (for the string ids this store
uses, the empty string) silently does nothing; otherwise store the
document minus its `_id` bindings under that key. -/
def insert_one (data : Store) (document : List (String × Value)) : Store :=
  match getKey document "_id" with
  | some (.vStr docId) =>
    if docId = "" then data
    else setField data docId (document.filter (fun p => p.1 != "_id"))
  | _ => data

/-- `find_one(query)` (lines 40-47): an exact-key lookup. The outer
`Option` is a raised exception (only possible for an unhashable `_id`
value); the inner `Option` is the function's `None`. A non-string
hashable id is never a key of this string-keyed store, so it returns
`None`. -/
def find_one (data : Store) (query : List (String × Value)) :
    Option (Option Doc) :=
  if hasKey query "_id" then
    match getKey query "_id" with
    | some (.vStr docId) =>
      match getKey data docId with
      | some doc => some (some (setField doc "_id" (.vStr docId)))
      | none => some none
    | some (.vInt _) => some none
    | some (.vList _) => none
    | some (.vDoc _) => none
    | none => some none
  else some none

/-- `find(query=None)` (lines 49-58): scan the store in insertion order,
materialise `_id` into a copy of each document, and keep those matching
the query (all of them when the query is `None`). `none` is an exception
raised by the matcher. -/
def find (data : Store) (query : Option (List (String × Value))) :
    Option (List Doc) :=
  match data with
  | [] => some []
  | (docId, docData) :: rest =>
    let doc := setField docData "_id" (.vStr docId)
    match query with
    | none =>
      match find rest none with
      | some r => some (doc :: r)
      | none => none
    | some q =>
      match matchQuery doc q with
      | none => none
      | some true =>
        match find rest query with
        | some r => some (doc :: r)
        | none => none
      | some false => find rest query

/-- One `$push` entry (lines 112-116): append to the field's list if the
field exists (`.append` on a non-list raises), else create the field as a
one-element list. -/
def applyPush (doc : Doc) (field : String) (value : Value) : Option Doc :=
  if hasKey doc field then
    match getKey doc field with
    | some (.vList xs) => some (setField doc field (.vList (xs ++ [value])))
    | _ => none
  else some (setField doc field (.vList [value]))

/-- One `$pull` entry (lines 117-120): when the field exists and contains
the value, remove its first occurrence (`list.remove`; calling it on a
non-list raises); otherwise leave the document alone. -/
def applyPull (doc : Doc) (field : String) (value : Value) : Option Doc :=
  if hasKey doc field then
    match getKey doc field with
    | some fv =>
      match pyIn value fv with
      | none => none
      | some false => some doc
      | some true =>
        match fv with
        | .vList xs => some (setField doc field (.vList (xs.erase value)))
        | _ => none
    | none => none
  else some doc

/-- `for field, value in update['$push'].items():` — fold the entries in
order, stopping at the first raising one. -/
def pushAll : Doc → List (String × Value) → Option Doc
  | doc, [] => some doc
  | doc, (f, v) :: rest =>
    match applyPush doc f v with
    | some d => pushAll d rest
    | none => none

/-- `for field, value in update['$pull'].items():` — fold the entries in
order, stopping at the first raising one. -/
def pullAll : Doc → List (String × Value) → Option Doc
  | doc, [] => some doc
  | doc, (f, v) :: rest =>
    match applyPull doc f v with
    | some d => pullAll d rest
    | none => none

/-- `update_one(query, update)` (lines 107-122): exact-key lookup; when
the key is found, apply the `$push` entries then the `$pull` entries and
report `modified_count = 1`; when the query has no `_id` or the key is
not stored, change nothing and report `modified_count = 0`. `none` is a
raised exception (non-dict operator value, non-list target field,
unhashable id); the store's partial mutation on such a path is not
modelled, as no claim concerns it. -/
def update_one (data : Store) (query update : List (String × Value)) :
    Option (Store × Nat) :=
  if hasKey query "_id" then
    match getKey query "_id" with
    | some (.vStr docId) =>
      match getKey data docId with
      | some doc0 =>
        match
          (if hasKey update "$push" then
            match getKey update "$push" with
            | some (.vDoc entries) => pushAll doc0 entries
            | _ => none
          else some doc0) with
        | none => none
        | some doc1 =>
          match
            (if hasKey update "$pull" then
              match getKey update "$pull" with
              | some (.vDoc entries) => pullAll doc1 entries
              | _ => none
            else some doc1) with
          | none => none
          | some doc2 => some (setField data docId doc2, 1)
      | none => some (data, 0)
    | some (.vInt _) => some (data, 0)
    | some (.vList _) => none
    | some (.vDoc _) => none
    | none => some (data, 0)
  else some (data, 0)

/-- The day values one document contributes (lines 128-130): guarded by
`'schedule_details' in doc_data and 'days' in doc_data['schedule_details']`,
then iterate `doc_data['schedule_details']['days']`. `some []` means the
guard was false, `none` an exception (subscripting or iterating a value
of the wrong shape). -/
def docDays (docData : Doc) : Option (List Value) :=
  if hasKey docData "schedule_details" then
    match getKey docData "schedule_details" with
    | some sd =>
      match pyIn (.vStr "days") sd with
      | none => none
      | some false => some []
      | some true =>
        match sd with
        | .vDoc fields =>
          match getKey fields "days" with
          | some dv => toIter dv
          | none => none
        | _ => none
    | none => none
  else some []

/-- Python hashability of a modelled value: ints and strings are
hashable, lists and dicts are not (`set.add` raises on them). -/
def hashable : Value → Bool
  | .vInt _ => true
  | .vStr _ => true
  | .vList _ => false
  | .vDoc _ => false

/-- `for doc_data in self.data.values(): ... result.add(day)` — collect
every contributed day, raising on an unhashable one. -/
def collectDays : Store → Option (List Value)
  | [] => some []
  | (_, docData) :: rest =>
    match docDays docData with
    | none => none
    | some items =>
      if items.all hashable then
        match collectDays rest with
        | some acc => some (items ++ acc)
        | none => none
      else none

/-- Python's string order, `≤` on code-point sequences. -/
def strLe (a b : String) : Prop :=
  strKey a ≤ strKey b

instance : DecidableRel strLe :=
  fun a b => inferInstanceAs (Decidable (strKey a ≤ strKey b))

instance : IsTotal String strLe :=
  ⟨fun a b => le_total (strKey a) (strKey b)⟩

instance : IsTrans String strLe :=
  ⟨fun _ _ _ hab hbc => le_trans hab hbc⟩

/-- `sorted(result)` on the set of collected (hashable) values: distinct
values in ascending order. Python sorts a homogeneous set of strings or
of ints and raises on a mixed one. (Insertion sort stands in for the
builtin; on distinct elements every correct sort agrees.) -/
def sortedSet (vs : List Value) : Option (List Value) :=
  let d := vs.dedup
  if d.all (fun v => match v with | .vStr _ => true | _ => false) then
    some (((d.filterMap
      (fun v => match v with | .vStr s => some s | _ => none)).insertionSort
        strLe).map .vStr)
  else if d.all (fun v => match v with | .vInt _ => true | _ => false) then
    some (((d.filterMap
      (fun v => match v with | .vInt n => some n | _ => none)).insertionSort
        (fun a b => a ≤ b)).map .vInt)
  else none

/-- `aggregate(pipeline)` (lines 124-131): the fixed unique-days
pipeline — collect every day in every document's
`schedule_details.days`, deduplicate, sort, and wrap each day as
`{'_id': day}`. -/
def aggregate (data : Store) (pipeline : List Value) : Option (List Doc) :=
  match collectDays data with
  | none => none
  | some days =>
    match sortedSet days with
    | some ds => some (ds.map (fun d => [("_id", d)]))
    | none => none


/-! ### Association-list lemmas -/

theorem hasKey_nil {β : Type} (k : String) : hasKey ([] : List (String × β)) k = false :=
  rfl

theorem hasKey_cons {β : Type} (p : String × β) (d : List (String × β)) (k : String) :
    hasKey (p :: d) k = ((p.1 == k) || hasKey d k) :=
  rfl

theorem getKey_nil {β : Type} (k : String) : getKey ([] : List (String × β)) k = none :=
  rfl

theorem getKey_cons {β : Type} (p : String × β) (d : List (String × β)) (k : String) :
    getKey (p :: d) k = if p.1 = k then some p.2 else getKey d k := by
  by_cases h : p.1 = k <;> simp [getKey, List.find?_cons, h]

theorem hasKey_eq_true_iff {β : Type} {d : List (String × β)} {k : String} :
    hasKey d k = true ↔ ∃ v, getKey d k = some v := by
  induction d with
  | nil => simp [hasKey_nil, getKey_nil]
  | cons p rest ih =>
    rw [hasKey_cons, getKey_cons]
    by_cases h : p.1 = k <;> simp [h, ih]

theorem getKey_eq_none_of_hasKey_eq_false {β : Type} {d : List (String × β)} {k : String}
    (h : hasKey d k = false) : getKey d k = none := by
  cases hg : getKey d k with
  | none => rfl
  | some v => rw [hasKey_eq_true_iff.mpr ⟨v, hg⟩] at h; cases h

theorem getKey_append {β : Type} (d₁ d₂ : List (String × β)) (k : String) :
    getKey (d₁ ++ d₂) k =
      match getKey d₁ k with
      | some v => some v
      | none => getKey d₂ k := by
  induction d₁ with
  | nil => simp [getKey_nil]
  | cons p rest ih =>
    rw [List.cons_append, getKey_cons, getKey_cons]
    by_cases h : p.1 = k <;> simp [h, ih]

theorem getKey_overwrite {β : Type} (d : List (String × β)) (k : String) (v : β) :
    getKey (d.map (fun p => if p.1 == k then (p.1, v) else p)) k =
      if hasKey d k then some v else none := by
  induction d with
  | nil => simp [getKey_nil, hasKey_nil]
  | cons p rest ih =>
    by_cases h : p.1 = k
    · simp [getKey_cons, hasKey_cons, h]
    · simp only [List.map_cons, beq_iff_eq, h, if_false, getKey_cons, hasKey_cons]
      simpa [h] using ih

theorem fst_overwrite {β : Type} (p : String × β) (k : String) (v : β) :
    (if p.1 == k then (p.1, v) else p).1 = p.1 := by
  by_cases hc : p.1 == k <;> simp [hc]

theorem getKey_overwrite_ne {β : Type} (d : List (String × β)) {k k' : String} (v : β)
    (h : k' ≠ k) :
    getKey (d.map (fun p => if p.1 == k then (p.1, v) else p)) k' = getKey d k' := by
  induction d with
  | nil => rfl
  | cons p rest ih =>
    rw [List.map_cons, getKey_cons, getKey_cons, fst_overwrite]
    by_cases h2 : p.1 = k'
    · rw [if_pos h2, if_pos h2]
      have hpk : (p.1 == k) = false := by
        simp only [beq_eq_false_iff_ne, ne_eq]
        intro he
        exact h (h2 ▸ he)
      rw [hpk]
      simp
    · rw [if_neg h2, if_neg h2, ih]

theorem getKey_setField_self {β : Type} (d : List (String × β)) (k : String) (v : β) :
    getKey (setField d k v) k = some v := by
  rw [setField]
  by_cases hk : hasKey d k
  · rw [if_pos hk, getKey_overwrite, if_pos hk]
  · rw [if_neg hk, getKey_append,
      getKey_eq_none_of_hasKey_eq_false (Bool.eq_false_iff.mpr hk)]
    rw [getKey_cons]
    simp

theorem getKey_setField_ne {β : Type} (d : List (String × β)) {k k' : String} (v : β)
    (h : k' ≠ k) : getKey (setField d k v) k' = getKey d k' := by
  rw [setField]
  by_cases hk : hasKey d k
  · rw [if_pos hk, getKey_overwrite_ne _ _ h]
  · rw [if_neg hk, getKey_append]
    cases hg : getKey d k' with
    | some v' => rfl
    | none =>
      rw [getKey_cons, if_neg (fun he => h he.symm), getKey_nil]

theorem overwrite_absent {β : Type} {d : List (String × β)} {k : String} (v : β)
    (h : ∀ p ∈ d, p.1 ≠ k) :
    d.map (fun p => if p.1 == k then (p.1, v) else p) = d := by
  induction d with
  | nil => rfl
  | cons p rest ih =>
    have h1 : ¬ ((p.1 == k) = true) := by
      simp only [beq_iff_eq]
      exact h p (by simp)
    rw [List.map_cons, if_neg h1, ih (fun q hq => h q (by simp [hq]))]

theorem setField_eq_self {β : Type} {d : List (String × β)} {k : String} {v : β}
    (hget : getKey d k = some v) (hnd : (d.map Prod.fst).Nodup) :
    setField d k v = d := by
  have hk : hasKey d k = true := hasKey_eq_true_iff.mpr ⟨v, hget⟩
  rw [setField, if_pos hk]
  induction d with
  | nil => cases hget
  | cons p rest ih =>
    simp only [List.map_cons, List.nodup_cons] at hnd
    by_cases hp : p.1 = k
    · rw [getKey_cons, if_pos hp] at hget
      have hpv : (p.1, v) = p := by
        cases p
        simp only [Option.some.injEq] at hget
        simp [hget]
      have hrest : ∀ q ∈ rest, q.1 ≠ k := by
        intro q hq he
        exact hnd.1 (hp ▸ he ▸ List.mem_map_of_mem Prod.fst hq)
      have hb : (p.1 == k) = true := by simp [hp]
      rw [List.map_cons, if_pos hb, hpv, overwrite_absent v hrest]
    · rw [getKey_cons, if_neg hp] at hget
      rw [hasKey_cons, Bool.or_eq_true] at hk
      have hk2 : hasKey rest k = true := by
        rcases hk with hk | hk
        · exact absurd (by simpa using hk) hp
        · exact hk
      have hb : ¬ ((p.1 == k) = true) := by simp [hp]
      rw [List.map_cons, if_neg hb, ih hget hnd.2 hk2]

/-! ### Query-matcher lemmas -/

theorem matchQuery_nil (doc : Doc) : matchQuery doc [] = some true :=
  rfl

theorem matchQuery_cons (doc : Doc) (k : String) (v : Value)
    (rest : List (String × Value)) :
    matchQuery doc ((k, v) :: rest) =
      match matchClause doc k v with
      | none => none
      | some false => some false
      | some true => matchQuery doc rest :=
  rfl

theorem matchQuery_eq_true_iff (doc : Doc) (q : List (String × Value)) :
    matchQuery doc q = some true ↔
      ∀ p ∈ q, matchClause doc p.1 p.2 = some true := by
  induction q with
  | nil => simp [matchQuery_nil]
  | cons p rest ih =>
    obtain ⟨k, v⟩ := p
    rw [matchQuery_cons]
    cases hc : matchClause doc k v with
    | none =>
      simp only []
      constructor
      · intro h; cases h
      · intro h
        have := h (k, v) (by simp)
        rw [hc] at this
        cases this
    | some b =>
      cases b with
      | false =>
        simp only []
        constructor
        · intro h; cases h
        · intro h
          have := h (k, v) (by simp)
          rw [hc] at this
          cases this
      | true =>
        simp only [ih]
        constructor
        · intro h p hp
          rcases List.mem_cons.mp hp with he | hm
          · rw [he]; exact hc
          · exact h p hm
        · intro h p hp
          exact h p (List.mem_cons_of_mem _ hp)

theorem anyIn_vList (items xs : List Value) :
    anyIn items (.vList xs) = some (items.any (fun it => xs.contains it)) := by
  induction items with
  | nil => rfl
  | cons x rest ih =>
    simp only [anyIn, pyIn]
    cases hx : xs.contains x with
    | true =>
      rw [List.any_cons]
      simp only [hx, Bool.true_or]
    | false =>
      rw [List.any_cons]
      simp only [hx, Bool.false_or]
      exact ih

theorem checkOp_in (cv : Value) (items : List Value) :
    checkOp cv (.vDoc [("$in", .vList items)]) = anyIn items cv := by
  rfl

theorem checkOp_gte (cv g : Value) :
    checkOp cv (.vDoc [("$gte", g)]) =
      match pyLt cv g with
      | some b => some (!b)
      | none => none := by
  rfl

theorem checkOp_lte (cv l : Value) :
    checkOp cv (.vDoc [("$lte", l)]) =
      match pyLt l cv with
      | some b => some (!b)
      | none => none := by
  rfl

theorem matchClause_top (doc : Doc) (key : String) (v cv : Value)
    (hdot : key.toList.contains '.' = false) (hget : getKey doc key = some cv) :
    matchClause doc key v = checkOp cv v := by
  unfold matchClause
  rw [if_neg (by rw [hdot]; simp),
    if_pos (hasKey_eq_true_iff.mpr ⟨cv, hget⟩), hget]

/-! ### Claim theorems: the query matcher (C3, C4, C10) -/

/-- C3: `_match_query` accepts a document iff every field clause of the
filter is satisfied (conjunction over clauses); a filter with no clauses
accepts every document; a clause whose top-level field is missing, or
whose dotted path fails to resolve through present mapping keys at some
step, evaluates to `False` (not an error) and so the document does not
match. -/
theorem match_query_conjunction (doc : Doc) :
    matchQuery doc [] = some true ∧
    (∀ q : List (String × Value),
      matchQuery doc q = some true ↔
        ∀ p ∈ q, matchClause doc p.1 p.2 = some true) ∧
    (∀ (key : String) (v : Value), key.toList.contains '.' = false →
      hasKey doc key = false → matchClause doc key v = some false) ∧
    (∀ (key : String) (v : Value), key.toList.contains '.' = true →
      resolvePath (.vDoc doc) (splitDots key) = none →
      matchClause doc key v = some false) := by
  refine ⟨matchQuery_nil doc, matchQuery_eq_true_iff doc, ?_, ?_⟩
  · intro key v hdot hmiss
    unfold matchClause
    rw [if_neg (by rw [hdot]; simp), if_neg (by rw [hmiss]; simp)]
  · intro key v hdot hres
    unfold matchClause
    rw [if_pos hdot, hres]

/-- Closed instance of `match_query_conjunction`: concrete empty-filter
acceptance, missing top-level field and failing dotted path. -/
theorem match_query_conjunction_witness :
    matchQuery [("a", Value.vInt 1)] [] = some true ∧
    matchClause [("a", Value.vInt 1)] "b" (Value.vInt 2) = some false ∧
    matchClause [("a", Value.vInt 1)] "a.b" (Value.vInt 2) = some false := by
  refine ⟨(match_query_conjunction _).1, ?_, ?_⟩
  · exact (match_query_conjunction _).2.2.1 "b" (Value.vInt 2) (by rfl) (by rfl)
  · exact (match_query_conjunction _).2.2.2 "a.b" (Value.vInt 2) (by rfl) (by rfl)

/-- C4: operator clauses — `$in` matches iff the document's list field
shares at least one element with the operator's list (any overlap);
`$gte` matches iff field ≥ operator value; `$lte` iff field ≤ operator
value; and the filter `{"max_participants": {"$gte": 20}}` accepts
exactly the documents with `max_participants ≥ 20`. -/
theorem match_query_operators :
    (∀ (xs items : List Value),
      checkOp (.vList xs) (.vDoc [("$in", .vList items)]) = some true ↔
        ∃ x ∈ items, x ∈ xs) ∧
    (∀ a b : Int,
      checkOp (.vInt a) (.vDoc [("$gte", .vInt b)]) = some (decide (b ≤ a))) ∧
    (∀ a b : Int,
      checkOp (.vInt a) (.vDoc [("$lte", .vInt b)]) = some (decide (a ≤ b))) ∧
    (∀ (doc : Doc) (m : Int), getKey doc "max_participants" = some (.vInt m) →
      (matchQuery doc [("max_participants", .vDoc [("$gte", .vInt 20)])] = some true ↔
        20 ≤ m)) := by
  have hgte : ∀ a b : Int,
      checkOp (.vInt a) (.vDoc [("$gte", .vInt b)]) = some (decide (b ≤ a)) := by
    intro a b
    rw [checkOp_gte]
    show some (!decide (a < b)) = some (decide (b ≤ a))
    congr 1
    rw [← decide_not]
    exact decide_eq_decide.mpr not_lt
  refine ⟨?_, hgte, ?_, ?_⟩
  · intro xs items
    rw [checkOp_in, anyIn_vList]
    simp [List.any_eq_true, List.contains, List.elem_iff]
  · intro a b
    rw [checkOp_lte]
    show some (!decide (b < a)) = some (decide (a ≤ b))
    congr 1
    rw [← decide_not]
    exact decide_eq_decide.mpr not_lt
  · intro doc m hget
    have h1 : matchClause doc "max_participants" (.vDoc [("$gte", .vInt 20)]) =
        checkOp (.vInt m) (.vDoc [("$gte", .vInt 20)]) :=
      matchClause_top doc _ _ _ (by rfl) hget
    rw [matchQuery_cons, h1, hgte m 20]
    cases hd : decide ((20 : Int) ≤ m) with
    | true => simpa [matchQuery_nil] using of_decide_eq_true hd
    | false =>
      have := of_decide_eq_false hd
      simpa using this

/-- Closed instance of `match_query_operators`: overlap for `$in` and
the concrete capacity filter at 25 ≥ 20. -/
theorem match_query_operators_witness :
    (checkOp (.vList [Value.vStr "a", Value.vStr "c"])
      (.vDoc [("$in", .vList [Value.vStr "c", Value.vStr "z"])]) = some true) ∧
    matchQuery [("max_participants", Value.vInt 25)]
      [("max_participants", .vDoc [("$gte", .vInt 20)])] = some true := by
  constructor
  · exact (match_query_operators.1 _ _).mpr
      ⟨Value.vStr "c", by decide, by decide⟩
  · exact (match_query_operators.2.2.2 _ 25 (by rfl)).mpr (by decide)

/-- C10: a clause whose value is a mapping containing none of `$in`,
`$gte`, `$lte` constrains nothing beyond resolvability of the field
path: whenever the (possibly nested) field resolves, the clause is
vacuously satisfied, whatever the field's value. -/
theorem unrecognized_operator_vacuous (fields : List (String × Value))
    (h1 : hasKey fields "$in" = false) (h2 : hasKey fields "$gte" = false)
    (h3 : hasKey fields "$lte" = false) :
    (∀ cv : Value, checkOp cv (.vDoc fields) = some true) ∧
    (∀ (doc : Doc) (key : String) (cv : Value),
      key.toList.contains '.' = false → getKey doc key = some cv →
      matchClause doc key (.vDoc fields) = some true) ∧
    (∀ (doc : Doc) (key : String) (cv : Value),
      key.toList.contains '.' = true →
      resolvePath (.vDoc doc) (splitDots key) = some cv →
      matchClause doc key (.vDoc fields) = some true) := by
  have hop : ∀ cv : Value, checkOp cv (.vDoc fields) = some true := by
    intro cv
    simp [checkOp, h1, h2, h3]
  refine ⟨hop, ?_, ?_⟩
  · intro doc key cv hdot hget
    rw [matchClause_top doc key _ cv hdot hget, hop]
  · intro doc key cv hdot hres
    unfold matchClause
    rw [if_pos hdot, hres]
    exact hop cv

/-- Closed instance of `unrecognized_operator_vacuous`: an operator-free
mapping clause accepts a field of unrelated value. -/
theorem unrecognized_operator_vacuous_witness :
    matchClause [("x", Value.vInt 3)] "x" (.vDoc [("oops", Value.vInt 0)]) =
      some true := by
  exact (unrecognized_operator_vacuous [("oops", Value.vInt 0)]
    (by rfl) (by rfl) (by rfl)).2.1 [("x", Value.vInt 3)] "x" (Value.vInt 3)
    (by rfl) (by rfl)

/-! ### Claim theorems: update_one (C7, C9) -/

/-- C7: `update_one` with a filter lacking the `_id` field, or naming a
key not present in the collection, leaves the store unchanged and
reports `modified_count = 0`, raising no exception. -/
theorem update_one_missing_key_noop (data : Store)
    (query u : List (String × Value)) :
    (hasKey query "_id" = false → update_one data query u = some (data, 0)) ∧
    (∀ k : String, getKey query "_id" = some (.vStr k) → getKey data k = none →
      update_one data query u = some (data, 0)) := by
  constructor
  · intro h
    unfold update_one
    rw [if_neg (by rw [h]; simp)]
  · intro k hq hdata
    unfold update_one
    rw [if_pos (hasKey_eq_true_iff.mpr ⟨_, hq⟩), hq]
    dsimp only []
    rw [hdata]

/-- Closed instance of `update_one_missing_key_noop`: a filter with no
key field and a filter naming an absent key. -/
theorem update_one_missing_key_noop_witness :
    update_one [("k", [])] [] [] = some ([("k", [])], 0) ∧
    update_one [("k", [])] [("_id", Value.vStr "z")] [] = some ([("k", [])], 0) := by
  constructor
  · exact (update_one_missing_key_noop _ _ _).1 (by rfl)
  · exact (update_one_missing_key_noop _ _ _).2 "z" (by rfl) (by rfl)

/-- C9: whenever the filter's key is found in the collection,
`update_one` reports `modified_count = 1` — even for an update spec with
neither `$push` nor `$pull`, which changes nothing; the count never
reflects whether a field actually changed. -/
theorem update_one_reports_one (data : Store) (k : String) (doc : Doc)
    (query u : List (String × Value))
    (hq : getKey query "_id" = some (.vStr k))
    (hdata : getKey data k = some doc) :
    (∀ (s : Store) (n : Nat), update_one data query u = some (s, n) → n = 1) ∧
    (hasKey u "$push" = false → hasKey u "$pull" = false →
      (data.map Prod.fst).Nodup → update_one data query u = some (data, 1)) := by
  constructor
  · intro s n h
    unfold update_one at h
    rw [if_pos (hasKey_eq_true_iff.mpr ⟨_, hq⟩), hq] at h
    dsimp only [] at h
    rw [hdata] at h
    dsimp only [] at h
    cases hstep1 : (if hasKey u "$push" = true then
        match getKey u "$push" with
        | some (.vDoc entries) => pushAll doc entries
        | _ => none
      else some doc) with
    | none => rw [hstep1] at h; cases h
    | some doc1 =>
      rw [hstep1] at h
      dsimp only [] at h
      cases hstep2 : (if hasKey u "$pull" = true then
          match getKey u "$pull" with
          | some (.vDoc entries) => pullAll doc1 entries
          | _ => none
        else some doc1) with
      | none => rw [hstep2] at h; cases h
      | some doc2 =>
        rw [hstep2] at h
        dsimp only [] at h
        cases h
        rfl
  · intro hpush hpull hnd
    unfold update_one
    rw [if_pos (hasKey_eq_true_iff.mpr ⟨_, hq⟩), hq]
    dsimp only []
    rw [hdata]
    dsimp only []
    rw [if_neg (by rw [hpush]; simp)]
    dsimp only []
    rw [if_neg (by rw [hpull]; simp)]
    dsimp only []
    rw [setField_eq_self hdata hnd]

/-- Closed instance of `update_one_reports_one`: an update spec with no
operators still reports one modification. -/
theorem update_one_reports_one_witness :
    update_one [("k", [("F", Value.vInt 3)])] [("_id", Value.vStr "k")] [] =
      some ([("k", [("F", Value.vInt 3)])], 1) := by
  exact (update_one_reports_one _ "k" [("F", Value.vInt 3)] _ _
    (by rfl) (by rfl)).2 (by rfl) (by rfl) (by simp)

/-! ### update_one with one `$push` / `$pull` entry (C1, C5) -/

theorem update_one_single_pull (data : Store) (k F : String) (doc : Doc)
    (V : Value) (hdata : getKey data k = some doc) :
    update_one data [("_id", .vStr k)] [("$pull", .vDoc [(F, V)])] =
      match applyPull doc F V with
      | some d => some (setField data k d, 1)
      | none => none := by
  unfold update_one
  rw [if_pos (by rfl),
    show getKey [("_id", Value.vStr k)] "_id" = some (.vStr k) from rfl]
  dsimp only []
  rw [hdata]
  dsimp only []
  rw [if_neg (by
    rw [show hasKey [("$pull", Value.vDoc [(F, V)])] "$push" = false from rfl]
    simp)]
  dsimp only []
  rw [if_pos (by rfl),
    show getKey [("$pull", Value.vDoc [(F, V)])] "$pull" =
      some (.vDoc [(F, V)]) from rfl]
  dsimp only []
  unfold pullAll
  cases hp : applyPull doc F V with
  | none => rfl
  | some d =>
    dsimp only []
    unfold pullAll
    rfl

theorem update_one_single_push (data : Store) (k F : String) (doc : Doc)
    (V : Value) (hdata : getKey data k = some doc) :
    update_one data [("_id", .vStr k)] [("$push", .vDoc [(F, V)])] =
      match applyPush doc F V with
      | some d => some (setField data k d, 1)
      | none => none := by
  unfold update_one
  rw [if_pos (by rfl),
    show getKey [("_id", Value.vStr k)] "_id" = some (.vStr k) from rfl]
  dsimp only []
  rw [hdata]
  dsimp only []
  rw [if_pos (by rfl),
    show getKey [("$push", Value.vDoc [(F, V)])] "$push" =
      some (.vDoc [(F, V)]) from rfl]
  dsimp only []
  unfold pushAll
  cases hp : applyPush doc F V with
  | none => rfl
  | some d =>
    dsimp only []
    unfold pushAll
    dsimp only []
    rw [if_neg (by
      rw [show hasKey [("$push", Value.vDoc [(F, V)])] "$pull" = false from rfl]
      simp)]

theorem applyPull_list (doc : Doc) (F : String) (V : Value) (xs : List Value)
    (hF : getKey doc F = some (.vList xs)) :
    applyPull doc F V =
      some (if V ∈ xs then setField doc F (.vList (xs.erase V)) else doc) := by
  unfold applyPull
  rw [if_pos (hasKey_eq_true_iff.mpr ⟨_, hF⟩), hF]
  dsimp only [pyIn]
  cases hc : xs.contains V with
  | true => rw [if_pos (List.elem_iff.mp hc)]
  | false =>
    have hm : V ∉ xs := by
      intro hm
      have h2 := List.elem_iff.mpr hm
      rw [show List.elem V xs = xs.contains V from rfl, hc] at h2
      cases h2
    rw [if_neg hm]

theorem applyPush_list (doc : Doc) (F : String) (V : Value) (xs : List Value)
    (hF : getKey doc F = some (.vList xs)) :
    applyPush doc F V = some (setField doc F (.vList (xs ++ [V]))) := by
  unfold applyPush
  rw [if_pos (hasKey_eq_true_iff.mpr ⟨_, hF⟩), hF]

theorem applyPush_absent (doc : Doc) (F : String) (V : Value)
    (hF : hasKey doc F = false) :
    applyPush doc F V = some (setField doc F (.vList [V])) := by
  unfold applyPush
  rw [if_neg (by rw [hF]; simp)]

theorem find_one_key (data : Store) (k : String) (doc : Doc)
    (hdata : getKey data k = some doc) :
    find_one data [("_id", .vStr k)] = some (some (setField doc "_id" (.vStr k))) := by
  unfold find_one
  rw [if_pos (by rfl),
    show getKey [("_id", Value.vStr k)] "_id" = some (.vStr k) from rfl]
  dsimp only []
  rw [hdata]

/-- C1 counterexample: pulling `"v"` from `F = ["v", "v"]` leaves
`["v"]` — the second occurrence survives, so `$pull` does not remove
every occurrence. -/
theorem update_one_pull_duplicate_counterexample :
    update_one [("k", [("F", Value.vList [Value.vStr "v", Value.vStr "v"])])]
        [("_id", Value.vStr "k")] [("$pull", Value.vDoc [("F", Value.vStr "v")])]
      = some ([("k", [("F", Value.vList [Value.vStr "v"])])], 1) ∧
    ([("k", [("F", Value.vList [Value.vStr "v"])])] : Store)
      ≠ [("k", [("F", Value.vList [])])] := by
  exact ⟨rfl, by decide⟩

/-- C1 (amended): `$pull` of V on a list-valued field F removes only the
FIRST occurrence of V (hence every occurrence when V occurs at most
once); the remaining elements keep their relative order (the result is a
sublist), and the removal happens at the first occurrence; a no-op when
V is absent. -/
theorem update_one_pull_first (data : Store) (k F : String) (doc : Doc)
    (xs : List Value) (V : Value)
    (hdata : getKey data k = some doc)
    (hF : getKey doc F = some (.vList xs))
    (hnd : (doc.map Prod.fst).Nodup) :
    update_one data [("_id", .vStr k)] [("$pull", .vDoc [(F, V)])] =
      some (setField data k (setField doc F (.vList (xs.erase V))), 1) ∧
    (xs.erase V).Sublist xs ∧
    (V ∈ xs → ∃ l₁ l₂, V ∉ l₁ ∧ xs = l₁ ++ V :: l₂ ∧ xs.erase V = l₁ ++ l₂) := by
  refine ⟨?_, List.erase_sublist V xs, fun hv => List.exists_erase_eq hv⟩
  rw [update_one_single_pull data k F doc V hdata, applyPull_list doc F V xs hF]
  by_cases hv : V ∈ xs
  · rw [if_pos hv]
  · rw [if_neg hv, List.erase_of_not_mem hv, setField_eq_self hF hnd]

/-- Closed instance of `update_one_pull_first`: pulling `"v"` from
`["a", "v", "v"]` gives `["a", "v"]`. -/
theorem update_one_pull_first_witness :
    update_one [("k", [("F", Value.vList
        [Value.vStr "a", Value.vStr "v", Value.vStr "v"])])]
        [("_id", Value.vStr "k")] [("$pull", Value.vDoc [("F", Value.vStr "v")])]
      = some ([("k", [("F", Value.vList [Value.vStr "a", Value.vStr "v"])])], 1) := by
  have h := (update_one_pull_first
    [("k", [("F", Value.vList [Value.vStr "a", Value.vStr "v", Value.vStr "v"])])]
    "k" "F"
    [("F", Value.vList [Value.vStr "a", Value.vStr "v", Value.vStr "v"])]
    [Value.vStr "a", Value.vStr "v", Value.vStr "v"] (Value.vStr "v")
    (by rfl) (by rfl) (by simp)).1
  rw [h]
  rfl

/-- C5: `$push` of V on field F appends V exactly once at the end of F's
list (creating F as the one-element list [V] when F is absent), keeping
all prior elements in order, and a subsequent `find_one` on the key
observes the new list. -/
theorem update_one_push_appends (data : Store) (k F : String) (doc : Doc)
    (V : Value) (hdata : getKey data k = some doc) (hne : F ≠ "_id") :
    (∀ xs, getKey doc F = some (.vList xs) →
      update_one data [("_id", .vStr k)] [("$push", .vDoc [(F, V)])] =
        some (setField data k (setField doc F (.vList (xs ++ [V]))), 1) ∧
      find_one (setField data k (setField doc F (.vList (xs ++ [V]))))
          [("_id", .vStr k)] =
        some (some (setField (setField doc F (.vList (xs ++ [V]))) "_id" (.vStr k))) ∧
      getKey (setField (setField doc F (.vList (xs ++ [V]))) "_id" (.vStr k)) F =
        some (.vList (xs ++ [V]))) ∧
    (hasKey doc F = false →
      update_one data [("_id", .vStr k)] [("$push", .vDoc [(F, V)])] =
        some (setField data k (setField doc F (.vList [V])), 1) ∧
      find_one (setField data k (setField doc F (.vList [V])))
          [("_id", .vStr k)] =
        some (some (setField (setField doc F (.vList [V])) "_id" (.vStr k))) ∧
      getKey (setField (setField doc F (.vList [V])) "_id" (.vStr k)) F =
        some (.vList [V])) := by
  constructor
  · intro xs hF
    have h1 := update_one_single_push data k F doc V hdata
    rw [applyPush_list doc F V xs hF] at h1
    refine ⟨h1, find_one_key _ k _ (getKey_setField_self data k _), ?_⟩
    rw [getKey_setField_ne _ _ hne, getKey_setField_self]
  · intro hF
    have h1 := update_one_single_push data k F doc V hdata
    rw [applyPush_absent doc F V hF] at h1
    refine ⟨h1, find_one_key _ k _ (getKey_setField_self data k _), ?_⟩
    rw [getKey_setField_ne _ _ hne, getKey_setField_self]

/-- Closed instance of `update_one_push_appends`: pushing `"b"` onto
`F = ["a"]` yields `["a", "b"]`. -/
theorem update_one_push_appends_witness :
    update_one [("k", [("F", Value.vList [Value.vStr "a"])])]
        [("_id", Value.vStr "k")] [("$push", Value.vDoc [("F", Value.vStr "b")])]
      = some ([("k", [("F", Value.vList [Value.vStr "a", Value.vStr "b"])])], 1) := by
  have h := ((update_one_push_appends
    [("k", [("F", Value.vList [Value.vStr "a"])])] "k" "F"
    [("F", Value.vList [Value.vStr "a"])] (Value.vStr "b")
    (by rfl) (by decide)).1 [Value.vStr "a"] (by rfl)).1
  rw [h]
  rfl

/-! ### Claim theorems: find_one / insert_one / count (C6, C2) -/

theorem hasKey_filter_id (document : Doc) :
    hasKey (document.filter (fun p => p.1 != "_id")) "_id" = false := by
  rw [hasKey, List.any_eq_false]
  intro p hp
  have := (List.mem_filter.mp hp).2
  simp only [bne_iff_ne, ne_eq, decide_eq_true_eq] at this
  simpa using this

theorem getKey_filter_id (document : Doc) {f : String} (hf : f ≠ "_id") :
    getKey (document.filter (fun p => p.1 != "_id")) f = getKey document f := by
  induction document with
  | nil => rfl
  | cons p rest ih =>
    by_cases hp : p.1 = "_id"
    · have hb : (p.1 != "_id") = false := by simp [hp]
      rw [List.filter_cons, hb]
      simp only [if_false, Bool.false_eq_true]
      rw [getKey_cons, if_neg (by rw [hp]; exact fun he => hf he.symm), ih]
    · have hb : (p.1 != "_id") = true := by simp [hp]
      rw [List.filter_cons, hb]
      simp only [if_true]
      rw [getKey_cons, getKey_cons, ih]

/-- C6: a document inserted under string key K is returned by `find_one`
with an exact-key filter for K as a copy with the key field materialized
back in (field-for-field equal to the original document), and `find_one`
for an absent key returns `None`, not an error. (The independence of the
returned copy from the stored one — the source's `copy.deepcopy` — is
inherent to this pure embedding, where `find_one` returns a value and
the store term is unchanged.) -/
theorem insert_find_one_roundtrip (data : Store) (document : Doc) (k : String)
    (hid : getKey document "_id" = some (.vStr k)) (hk : k ≠ "") :
    find_one (insert_one data document) [("_id", .vStr k)] =
      some (some (document.filter (fun p => p.1 != "_id") ++ [("_id", .vStr k)])) ∧
    (∀ f : String,
      getKey (document.filter (fun p => p.1 != "_id") ++ [("_id", .vStr k)]) f =
        getKey document f) ∧
    (∀ (data' : Store) (k' : String), getKey data' k' = none →
      find_one data' [("_id", .vStr k')] = some none) := by
  refine ⟨?_, ?_, ?_⟩
  · have hins : insert_one data document =
        setField data k (document.filter (fun p => p.1 != "_id")) := by
      unfold insert_one
      rw [hid]
      dsimp only []
      rw [if_neg hk]
    rw [hins,
      find_one_key _ k _ (getKey_setField_self data k _)]
    congr 2
    rw [setField, if_neg (by rw [hasKey_filter_id]; simp)]
  · intro f
    rw [getKey_append]
    by_cases hf : f = "_id"
    · rw [hf, getKey_eq_none_of_hasKey_eq_false (hasKey_filter_id document)]
      rw [getKey_cons]
      simp [hid]
    · rw [getKey_filter_id document hf]
      cases hg : getKey document f with
      | some v => rfl
      | none =>
        rw [getKey_cons, if_neg (fun he => hf he.symm), getKey_nil]
  · intro data' k' hnone
    unfold find_one
    rw [if_pos (by rfl),
      show getKey [("_id", Value.vStr k')] "_id" = some (.vStr k') from rfl]
    dsimp only []
    rw [hnone]

/-- Closed instance of `insert_find_one_roundtrip`: a concrete insert
then lookup, and a lookup of a nonexistent key. -/
theorem insert_find_one_roundtrip_witness :
    find_one (insert_one [] [("_id", Value.vStr "k"), ("a", Value.vInt 1)])
        [("_id", Value.vStr "k")] =
      some (some [("a", Value.vInt 1), ("_id", Value.vStr "k")]) ∧
    find_one [] [("_id", Value.vStr "nonexistent")] = some none := by
  constructor
  · have h := (insert_find_one_roundtrip []
      [("_id", Value.vStr "k"), ("a", Value.vInt 1)] "k" (by rfl) (by decide)).1
    rw [h]
    rfl
  · exact (insert_find_one_roundtrip []
      [("_id", Value.vStr "k"), ("a", Value.vInt 1)] "k" (by rfl) (by decide)).2.2
      [] "nonexistent" (by rfl)

theorem find_empty_query (data : Store) :
    find data (some []) =
      some (data.map (fun p => setField p.2 "_id" (.vStr p.1))) := by
  induction data with
  | nil => rfl
  | cons p rest ih =>
    obtain ⟨docId, docData⟩ := p
    unfold find
    dsimp only []
    rw [matchQuery_nil]
    dsimp only []
    rw [ih]
    rfl

theorem find_absent_query (data : Store) :
    find data none =
      some (data.map (fun p => setField p.2 "_id" (.vStr p.1))) := by
  induction data with
  | nil => rfl
  | cons p rest ih =>
    obtain ⟨docId, docData⟩ := p
    unfold find
    dsimp only []
    rw [ih]
    rfl

/-- C2 counterexample: with one stored document and a filter that
matches nothing, `count_documents` still returns 1 even though `find`
returns no matching document — the count is not the number of matches. -/
theorem count_documents_filter_counterexample :
    count_documents [("a", [])] [("x", Value.vInt 1)] = 1 ∧
    find [("a", [])] (some [("x", Value.vInt 1)]) = some [] ∧
    (1 : Nat) ≠ 0 := by
  exact ⟨rfl, rfl, by decide⟩

/-- C2 (amended): `count_documents` ignores its filter and always
returns the total number of stored documents; since an empty or absent
filter matches every document, the count equals the number of matching
documents exactly in that case. -/
theorem count_documents_ignores_filter (data : Store)
    (query : List (String × Value)) :
    count_documents data query = data.length ∧
    (∃ docs, find data (some []) = some docs ∧ docs.length = data.length) ∧
    (∃ docs, find data none = some docs ∧ docs.length = data.length) := by
  refine ⟨rfl, ⟨_, find_empty_query data, by simp⟩,
    ⟨_, find_absent_query data, by simp⟩⟩

/-! ### Claim theorems: the unique-days aggregation (C8) -/

theorem vStr_injective : Function.Injective Value.vStr := by
  intro a b h
  injection h

theorem all_hashable_map_vStr (ss : List String) :
    (ss.map Value.vStr).all hashable = true := by
  induction ss with
  | nil => rfl
  | cons x xs ih =>
    rw [List.map_cons, List.all_cons, ih]
    rfl

theorem all_isStr_map_vStr (ss : List String) :
    ((ss.map Value.vStr).all fun v =>
      match v with | Value.vStr _ => true | _ => false) = true := by
  induction ss with
  | nil => rfl
  | cons x xs ih =>
    rw [List.map_cons, List.all_cons, ih]
    rfl

theorem collectDays_strings (data : Store)
    (hwf : ∀ p ∈ data, ∃ ss : List String, docDays p.2 = some (ss.map Value.vStr)) :
    ∃ vs : List String, collectDays data = some (vs.map Value.vStr) ∧
      ∀ s : String, (s ∈ vs ↔ ∃ p ∈ data, ∃ ss : List String,
        docDays p.2 = some (ss.map Value.vStr) ∧ s ∈ ss) := by
  induction data with
  | nil => exact ⟨[], rfl, by simp⟩
  | cons p rest ih =>
    obtain ⟨ss, hss⟩ := hwf p (by simp)
    obtain ⟨vs, hvs, hmem⟩ := ih (fun q hq => hwf q (by simp [hq]))
    refine ⟨ss ++ vs, ?_, ?_⟩
    · obtain ⟨k, d⟩ := p
      unfold collectDays
      rw [show docDays (k, d).2 = some (ss.map Value.vStr) from hss]
      dsimp only []
      rw [if_pos (all_hashable_map_vStr ss)]
      rw [hvs]
      dsimp only []
      rw [List.map_append]
    · intro s
      rw [List.mem_append]
      constructor
      · rintro (hs | hs)
        · exact ⟨p, by simp, ss, hss, hs⟩
        · obtain ⟨q, hq, ss', hss', hs'⟩ := (hmem s).mp hs
          exact ⟨q, by simp [hq], ss', hss', hs'⟩
      · rintro ⟨q, hq, ss', hss', hs'⟩
        rcases List.mem_cons.mp hq with he | hq'
        · left
          rw [he] at hss'
          rw [hss] at hss'
          have h2 : ss.map Value.vStr = ss'.map Value.vStr := Option.some.inj hss'
          have h3 : ss = ss' := (List.map_injective_iff.mpr vStr_injective) h2
          rw [h3]
          exact hs'
        · right
          exact (hmem s).mpr ⟨q, hq', ss', hss', hs'⟩

theorem dedup_map_vStr (l : List String) :
    (l.map Value.vStr).dedup = l.dedup.map Value.vStr := by
  induction l with
  | nil => rfl
  | cons x xs ih =>
    by_cases hx : x ∈ xs
    · rw [List.map_cons, List.dedup_cons_of_mem (List.mem_map_of_mem Value.vStr hx),
        List.dedup_cons_of_mem hx, ih]
    · rw [List.map_cons, List.dedup_cons_of_not_mem, List.dedup_cons_of_not_mem hx,
        List.map_cons, ih]
      intro hmem
      obtain ⟨y, hy, he⟩ := List.mem_map.mp hmem
      cases vStr_injective he
      exact hx hy

theorem filterMap_vStr (l : List Value) (strs : List String)
    (h : l = strs.map Value.vStr) :
    l.filterMap (fun v => match v with | Value.vStr s => some s | _ => none) = strs := by
  subst h
  induction strs with
  | nil => rfl
  | cons x xs ih =>
    rw [List.map_cons, List.filterMap_cons]
    dsimp only []
    rw [ih]

theorem sortedSet_strings (vs : List String) :
    sortedSet (vs.map Value.vStr) =
      some ((vs.dedup.insertionSort strLe).map Value.vStr) := by
  unfold sortedSet
  rw [dedup_map_vStr]
  rw [if_pos (all_isStr_map_vStr vs.dedup)]
  rw [filterMap_vStr _ vs.dedup rfl]

/-- C8 (amended): the unique-days aggregation returns the distinct day
names drawn from every document's `schedule_details.days`, sorted
alphabetically and deduplicated, each wrapped as the single-field record
`{"_id": day}` (the record field is `_id`, not `day`). -/
theorem aggregate_unique_days_sorted (data : Store)
    (hwf : ∀ p ∈ data, ∃ ss : List String, docDays p.2 = some (ss.map Value.vStr)) :
    ∃ ds : List String,
      aggregate data [] = some (ds.map (fun s => [("_id", Value.vStr s)])) ∧
      ds.Sorted strLe ∧ ds.Nodup ∧
      (∀ s : String, (s ∈ ds ↔ ∃ p ∈ data, ∃ ss : List String,
        docDays p.2 = some (ss.map Value.vStr) ∧ s ∈ ss)) := by
  obtain ⟨vs, hcol, hmem⟩ := collectDays_strings data hwf
  refine ⟨vs.dedup.insertionSort strLe, ?_, ?_, ?_, ?_⟩
  · unfold aggregate
    rw [hcol]
    dsimp only []
    rw [sortedSet_strings]
    dsimp only []
    rw [List.map_map]
    rfl
  · exact List.sorted_insertionSort strLe vs.dedup
  · exact ((List.perm_insertionSort strLe vs.dedup).nodup_iff).mpr (List.nodup_dedup vs)
  · intro s
    rw [(List.perm_insertionSort strLe vs.dedup).mem_iff, List.mem_dedup]
    exact hmem s

/-- Closed instance of `aggregate_unique_days_sorted` on the spec's
example store. -/
theorem aggregate_unique_days_sorted_witness :
    ∃ ds : List String,
      aggregate
        [("d1", [("schedule_details", Value.vDoc [("days",
            Value.vList [Value.vStr "Monday", Value.vStr "Friday"])])]),
         ("d2", [("schedule_details", Value.vDoc [("days",
            Value.vList [Value.vStr "Friday"])])])] []
        = some (ds.map (fun s => [("_id", Value.vStr s)])) ∧
      ds.Sorted strLe := by
  obtain ⟨ds, h1, h2, _, _⟩ := aggregate_unique_days_sorted
    [("d1", [("schedule_details", Value.vDoc [("days",
        Value.vList [Value.vStr "Monday", Value.vStr "Friday"])])]),
     ("d2", [("schedule_details", Value.vDoc [("days",
        Value.vList [Value.vStr "Friday"])])])]
    (by
      intro p hp
      rcases List.mem_cons.mp hp with he | hp2
      · exact ⟨["Monday", "Friday"], by rw [he]; rfl⟩
      · rcases List.mem_cons.mp hp2 with he | hp3
        · exact ⟨["Friday"], by rw [he]; rfl⟩
        · cases hp3)
  exact ⟨ds, h1, h2⟩

/-- C8 counterexample: on the spec's example documents the aggregation
returns records keyed `_id` — `[{"_id": "Friday"}, {"_id": "Monday"}]` —
not records keyed `day` as the claim's example states. -/
theorem aggregate_day_key_counterexample :
    aggregate
        [("d1", [("schedule_details", Value.vDoc [("days",
            Value.vList [Value.vStr "Monday", Value.vStr "Friday"])])]),
         ("d2", [("schedule_details", Value.vDoc [("days",
            Value.vList [Value.vStr "Friday"])])])] []
      = some [[("_id", Value.vStr "Friday")], [("_id", Value.vStr "Monday")]] ∧
    (some [[("_id", Value.vStr "Friday")], [("_id", Value.vStr "Monday")]] :
        Option (List Doc))
      ≠ some [[("day", Value.vStr "Friday")], [("day", Value.vStr "Monday")]] := by
  exact ⟨rfl, by decide⟩
